import Mathlib

/-!
# Verification of the annonet inference pipeline

Shallow embedding of `annonet.h` (image/label data model, anno-class JSON
parsing, label decoding, `read_sample`) and `annonet_infer_main.cpp`
(class-specific gain parsing, label/color conversion, the orchestrator's
main inference loop), together with proofs of the stated properties.

Machine integers are modelled as `Nat` with explicit `% 2 ^ w` where the
source truncates (`uint16_t` class indices, `unsigned char` color
components).  External library calls (image loading via `dlib::load_image`,
numeric parsing via `std::stoul` / `std::stod`, JSON parsing via rapidjson's
`Parse`) are modelled as explicit oracle parameters returning
`Except`-values, since their behaviour is outside this repository; every
piece of control flow of the repository itself is translated directly.
-/

namespace Annonet

/-- `dlib::rgb_alpha_pixel`: four `unsigned char` components.
Values are kept below 256 by construction at every use site
(`% 256` where the source converts an `int` to `unsigned char`). -/
structure rgb_alpha_pixel where
  red : Nat
  green : Nat
  blue : Nat
  alpha : Nat
deriving DecidableEq, Repr

/-- `rgba_ignore_label(0, 0, 0, 0)` from `annonet.h`. -/
def rgba_ignore_label : rgb_alpha_pixel := ⟨0, 0, 0, 0⟩

/-- `dlib::loss_multiclass_log_per_pixel_::label_to_ignore =
std::numeric_limits<uint16_t>::max()`. -/
def label_to_ignore : Nat := 65535

/-- `struct AnnoClass` from `annonet.h`.  `index` is a `uint16_t`,
modelled as a `Nat` that is reduced `% 65536` wherever the source
narrows a wider integer into the field. -/
structure AnnoClass where
  index : Nat
  rgba_label : rgb_alpha_pixel
  classlabel : String
deriving DecidableEq, Repr

/-! ## Anno-class JSON parsing (`parse_anno_classes`)

rapidjson documents are modelled by the shape the source actually
inspects: `FindMember` results become `Option` fields, `GetInt` values
become `Int`s (narrowed `% 256` into pixel components, as the
`rgb_alpha_pixel` constructor takes `unsigned char`), and the three
top-level failure shapes (`HasParseError`, not an object, missing or
non-array `anno_classes` member) become constructors. -/

/-- The `color` object of one `anno_classes` entry: each component is
present (`some`) or absent (`none`), mirroring the four `FindMember`
checks. -/
structure JColor where
  red : Option Int
  green : Option Int
  blue : Option Int
  alpha : Option Int
deriving DecidableEq, Repr

/-- One entry of the `anno_classes` array: the `name` and `color`
members may each be absent. -/
structure JEntry where
  name : Option String
  color : Option JColor
deriving DecidableEq, Repr

/-- The parsed rapidjson document, restricted to the shapes
`parse_anno_classes` distinguishes.  `obj none` is a document that is an
object but whose `anno_classes` member is missing or not an array. -/
inductive JDoc where
  | parseError
  | notObject
  | obj (anno_classes : Option (List JEntry))
deriving DecidableEq, Repr

/-- The `dlib::rgb_alpha_pixel(int, int, int, int)` construction:
each `int` is narrowed to `unsigned char`, i.e. reduced mod 256. -/
def pixel_of_ints (r g b a : Int) : rgb_alpha_pixel :=
  ⟨(r % 256).toNat, (g % 256).toNat, (b % 256).toNat, (a % 256).toNat⟩

/-- Processing of one `anno_classes` entry at array position `i`
(`annonet.h` lines 78–106): missing `name`, missing `color`, missing
color component and the reserved color each throw; otherwise the entry
becomes `AnnoClass(i, rgba_value, name)` (with `i` narrowed to
`uint16_t`). -/
def parse_anno_class (i : Nat) (e : JEntry) : Except String AnnoClass :=
  match e.name with
  | none => .error "Unexpected anno classes json content - no name found"
  | some nm =>
    match e.color with
    | none => .error "Unexpected anno classes json content - no color found"
    | some c =>
      match c.red, c.green, c.blue, c.alpha with
      | some r, some g, some b, some a =>
        if pixel_of_ints r g b a = rgba_ignore_label then
          .error "Unexpected anno classes json content - rgba (0, 0, 0, 0) is reserved for pixels to be ignored"
        else
          .ok ⟨i % 65536, pixel_of_ints r g b a, nm⟩
      | _, _, _, _ =>
        .error "Unexpected anno classes json content - color should have all components (red, green, blue, alpha)"

/-- The loop of `parse_anno_classes` over the `anno_classes` array,
starting at array position `i`.  The source pushes each parsed class and
throws at the first malformed entry; in `Except` the same observable
result is the list of parsed classes or the first error. -/
def parse_anno_classes_list (i : Nat) : List JEntry → Except String (List AnnoClass)
  | [] => .ok []
  | e :: rest =>
    match parse_anno_class i e with
    | .error m => .error m
    | .ok c =>
      match parse_anno_classes_list (i + 1) rest with
      | .error m => .error m
      | .ok cs => .ok (c :: cs)

/-- The two built-in classes used when the JSON blob is empty. -/
def default_anno_classes : List AnnoClass :=
  [⟨0, ⟨0, 255, 0, 64⟩, "clean"⟩, ⟨1, ⟨255, 0, 0, 128⟩, "defect"⟩]

/-- `parse_anno_classes` from `annonet.h`: empty input yields the two
built-in classes; otherwise the document (obtained from the external
rapidjson parse, modelled by the oracle `parse`) is checked and its
`anno_classes` array is processed. -/
def parse_anno_classes (parse : String → JDoc) (json : String) : Except String (List AnnoClass) :=
  if json = "" then
    .ok default_anno_classes
  else
    match parse json with
    | .parseError => .error ("Error parsing json\n" ++ json)
    | .notObject => .error "Unexpected anno classes json content - the document should be an object"
    | .obj none => .error "Unexpected anno classes json content - there should be an anno_classes array"
    | .obj (some entries) => parse_anno_classes_list 0 entries

/-! ## Label/color conversion -/

/-- `rgba_label_to_index_label` from `annonet.h`: the reserved color maps
to the ignore sentinel, otherwise the first class with a matching color
key gives its index; an unmatched color throws. -/
def rgba_label_to_index_label (rgba_label : rgb_alpha_pixel) (anno_classes : List AnnoClass) :
    Except String Nat :=
  if rgba_label = rgba_ignore_label then
    .ok label_to_ignore
  else
    match anno_classes.find? (fun ac => ac.rgba_label = rgba_label) with
    | some ac => .ok ac.index
    | none =>
      .error ("Unknown class: r = " ++ toString rgba_label.red ++ ", g = " ++
        toString rgba_label.green ++ ", b = " ++ toString rgba_label.blue ++
        ", alpha = " ++ toString rgba_label.alpha)

/-- `index_label_to_rgba_label` from `annonet_infer_main.cpp`: plain
vector indexing, well-defined only below the vector's size (out-of-range
access is undefined behaviour in the source, hence the bound is a
precondition here). -/
def index_label_to_rgba_label (index_label : Nat) (anno_classes : List AnnoClass)
    (h : index_label < anno_classes.length) : rgb_alpha_pixel :=
  (anno_classes.get ⟨index_label, h⟩).rgba_label

/-! ## Images, samples and `read_sample`

`dlib::matrix` is modelled by its dimensions plus row-major contents.
Image decoding (`dlib::load_image`) is external, so `read_sample` takes
loader oracles returning `Except`-values: an `.error` models the loader
throwing, which the source's `try`/`catch` converts into the sample's
`error` field. -/

/-- A `dlib::matrix`: dimensions and row-major contents. -/
structure MatrixD (α : Type) where
  nr : Nat
  nc : Nat
  data : List (List α)
deriving DecidableEq, Repr

/-- In-bounds element access `m(r, c)`.  Out-of-bounds access is
undefined behaviour in dlib; the default is a modelling artifact never
reached from well-formed matrices. -/
def MatrixD.get {α : Type} (m : MatrixD α) (dflt : α) (r c : Nat) : α :=
  (m.data.getD r []).getD c dflt

/-- The default-constructed (empty) matrix. -/
def MatrixD.empty {α : Type} : MatrixD α := ⟨0, 0, []⟩

/-- `struct image_filenames` from `annonet.h`; an empty
`label_filename` models the default-constructed (absent) label path. -/
structure image_filenames where
  image_filename : String
  label_filename : String
deriving DecidableEq, Repr

/-- `struct sample` from `annonet.h`.  Pixels are `uint8_t` for the
input image and `uint16_t` index labels for the label image, both
modelled as `Nat`; `labeled_points_by_class` is the
`unordered_map<uint16_t, deque<point>>`, modelled as an association
list in first-insertion order with points as `(x, y) = (c, r)` pairs. -/
structure sample where
  image_filenames : image_filenames
  input_image : MatrixD Nat
  label_image : MatrixD Nat
  labeled_points_by_class : List (Nat × List (Nat × Nat))
  error : String
deriving DecidableEq, Repr

/-- `map[label].push_back(point)` on the association-list model of the
`unordered_map`: append to the existing deque, or create a singleton. -/
def push_point (m : List (Nat × List (Nat × Nat))) (label : Nat) (p : Nat × Nat) :
    List (Nat × List (Nat × Nat)) :=
  match m with
  | [] => [(label, [p])]
  | (k, ps) :: rest =>
    if k = label then (k, ps ++ [p]) :: rest else (k, ps) :: push_point rest label p

/-- The `labeled_points_by_class` contents produced by
`decode_rgba_label_image`: every non-ignore pixel `(r, c)` of the
decoded label rows is pushed as `point(c, r)` in raster order. -/
def collect_points (rows : List (List Nat)) : List (Nat × List (Nat × Nat)) :=
  rows.enum.foldl
    (fun m rrow =>
      rrow.2.enum.foldl
        (fun m clabel =>
          if clabel.2 ≠ label_to_ignore then push_point m clabel.2 (clabel.1, rrow.1) else m)
        m)
    []

/-- `decode_rgba_label_image` from `annonet.h`: sizes the label image to
the rgba image's dimensions and converts every pixel in raster order,
collecting non-ignore points per class; an unknown color throws at the
first offending pixel.  (At a throw the source leaves a partially
written, partly uninitialized label buffer behind; that transient state
is unspecified in the source and not modelled — the thrown message is.) -/
def decode_rgba_label_image (rgba_label_image : MatrixD rgb_alpha_pixel)
    (ground_truth_sample : sample) (anno_classes : List AnnoClass) : Except String sample := do
  let nr := rgba_label_image.nr
  let nc := rgba_label_image.nc
  let rows ← (List.range nr).mapM (fun r =>
    (List.range nc).mapM (fun c =>
      rgba_label_to_index_label (rgba_label_image.get rgba_ignore_label r c) anno_classes))
  .ok { ground_truth_sample with
          label_image := ⟨nr, nc, rows⟩
          labeled_points_by_class := collect_points rows }

/-- `read_sample` from `annonet.h` (the 3-parameter version present in
the header).  `load_input` and `load_label` are the `dlib::load_image`
calls on the image and label paths; any `.error` from them or from the
decode step is caught and stored in the returned sample's `error`
field, exactly as the source's `try`/`catch` does.  Note the size check
on line 222 of the source: the label image is decoded when the row
counts OR the column counts agree (`||`), and the "Label image size
mismatch" error is produced only when both differ. -/
def read_sample (load_input : String → Except String (MatrixD Nat))
    (load_label : String → Except String (MatrixD rgb_alpha_pixel))
    (fns : image_filenames) (anno_classes : List AnnoClass)
    (require_ground_truth : Bool) : sample :=
  let s0 : sample :=
    { image_filenames := fns, input_image := .empty, label_image := .empty
      labeled_points_by_class := [], error := "" }
  match load_input fns.image_filename with
  | .error e => { s0 with error := e }
  | .ok img =>
    let s1 := { s0 with input_image := img }
    if fns.label_filename ≠ "" then
      match load_label fns.label_filename with
      | .error e => { s1 with error := e }
      | .ok rgba_label_image =>
        if img.nr = rgba_label_image.nr ∨ img.nc = rgba_label_image.nc then
          match decode_rgba_label_image rgba_label_image s1 anno_classes with
          | .ok s2 => s2
          | .error e => { s1 with error := e }
        else
          { s1 with error := "Label image size mismatch" }
    else if require_ground_truth then
      { s1 with error := "No ground truth available" }
    else
      s1

/-! ## Class-specific gain parsing (`annonet_infer_main.cpp`)

`std::stoul` and `std::stod` are external library calls, modelled as
oracles returning `Except`-values (an `.error` models a throw).  The
gain value type is an arbitrary `V`, since the source never computes
with the parsed `double`s, only stores them.  `class_index` is a
`uint16_t`: the `unsigned long` from `stoul` is narrowed `% 65536`. -/

/-- `struct class_specific_value_type` from `annonet_infer_main.cpp`. -/
structure class_specific_value_type (V : Type) where
  class_index : Nat
  value : V
deriving DecidableEq, Repr

/-- The message of the gain-format error. -/
def gains_format_error : String :=
  "The gains must be supplied in the format index:gain (e.g., 1:-0.5)"

/-- `parse_class_specific_value`: locate the first `':'`, reject a
missing colon, a colon at position 0 or a colon at the last position,
then parse the two substrings with `stoul` / `stod`. -/
def parse_class_specific_value {V : Type} (stoul : String → Except String Nat)
    (stod : String → Except String V) (string_from_command_line : String) :
    Except String (class_specific_value_type V) :=
  match string_from_command_line.toList.findIdx? (fun ch => ch = ':') with
  | none => .error gains_format_error
  | some colon_pos =>
    if colon_pos < 1 ∨ colon_pos ≥ string_from_command_line.toList.length - 1 then
      .error gains_format_error
    else
      match stoul (String.mk (string_from_command_line.toList.take colon_pos)) with
      | .error e => .error e
      | .ok idx =>
        match stod (String.mk (string_from_command_line.toList.drop (colon_pos + 1))) with
        | .error e => .error e
        | .ok v => .ok ⟨idx % 65536, v⟩

/-- The out-of-range message of `parse_class_specific_values`. -/
def gains_range_error (class_index class_count : Nat) : String :=
  "Can't define class-specific value for index " ++ toString class_index ++
    " when there are only " ++ toString class_count ++ " classes"

/-- The loop of `parse_class_specific_values`: parse each string, throw
if its index is not below `class_count`, otherwise overwrite that slot. -/
def parse_class_specific_values_go {V : Type} (stoul : String → Except String Nat)
    (stod : String → Except String V) (class_count : Nat) :
    List String → List V → Except String (List V)
  | [], acc => .ok acc
  | s :: rest, acc =>
    match parse_class_specific_value stoul stod s with
    | .error e => .error e
    | .ok csv =>
      if csv.class_index ≥ class_count then
        .error (gains_range_error csv.class_index class_count)
      else
        parse_class_specific_values_go stoul stod class_count rest
          (acc.set csv.class_index csv.value)

/-- `parse_class_specific_values` from `annonet_infer_main.cpp`: start
from `class_count` copies of the zero value (`std::vector<double>(class_count, 0.0)`)
and fold the command-line strings over it. -/
def parse_class_specific_values {V : Type} (stoul : String → Except String Nat)
    (stod : String → Except String V) (strings_from_command_line : List String)
    (class_count : Nat) (zero : V) : Except String (List V) :=
  parse_class_specific_values_go stoul stod class_count strings_from_command_line
    (List.replicate class_count zero)

/-! ## The decoded sample used by the inference orchestrator

`annonet_infer_main.cpp` calls a 4-parameter overload
`read_sample(image_filenames, anno_classes, false, downscaling_factor)`
and reads `sample.original_width` / `sample.original_height`; that
overload and those two fields are not among the repository files
available here (the header above has only the 3-parameter version and a
`sample` without those fields), so the decode step of the orchestrator
is modelled from the spec. -/

/-- Modelled from the spec: the `DecodedSample` record of §3 as consumed
by `annonet_infer_main.cpp` — the downscaling-aware `read_sample`
overload and the `original_width` / `original_height` fields of
`sample` are missing from the available sources.  Only the fields the
orchestrator's main loop reads are kept (pixel contents of the decoded
image never influence the control flow being verified, its dimensions
do). -/
structure sampleDS where
  image_filenames : image_filenames
  input_nr : Nat
  input_nc : Nat
  original_width : Nat
  original_height : Nat
  error : String
deriving DecidableEq, Repr

/-- Modelled from the spec: the downscaling-aware `read_sample` overload
called on the reader threads of `annonet_infer_main.cpp`, absent from
the available sources.  Per §3, "Downscaling, if configured, is applied
at decode time; `originalWidth/Height` always records the pre-downscale
dimensions so output can be resized back": the loaded image has
dimensions `height × width`; those are recorded as the original
dimensions, and the input image kept on the sample is the downscaled one
when downscaling is configured.  `load_dims` is the external image load
(an `.error` models a decode failure captured in the `error` field), and
`downscale` the external resize's effect on the dimensions. -/
def read_sample_downscaled (load_dims : String → Except String (Nat × Nat))
    (downscale : Nat × Nat → Nat × Nat) (downscaling_configured : Bool)
    (fns : image_filenames) : sampleDS :=
  match load_dims fns.image_filename with
  | .error e =>
    { image_filenames := fns, input_nr := 0, input_nc := 0
      original_width := 0, original_height := 0, error := e }
  | .ok (h, w) =>
    let hw := if downscaling_configured then downscale (h, w) else (h, w)
    { image_filenames := fns, input_nr := hw.1, input_nc := hw.2
      original_width := w, original_height := h, error := "" }

/-! ## The orchestrator's main inference loop (`annonet_infer_main.cpp`)

The loop body (lines 230–253) dequeues one decoded sample per input
file, throws the sample's `error` if it is non-empty, and otherwise
builds a result-image record and hands it to the writers.  The loop is
modelled on the sequence of dequeued samples; its result is the list of
result images enqueued before the loop ended, plus the thrown message,
if any (a throw leaves the remaining samples unprocessed). -/

/-- `struct result_image_type`, restricted to the fields the loop body
sets (the probability pixels are produced by the external
`annonet_infer` and never inspected by the control flow; the buffer's
dimensions are). -/
structure result_image_type where
  filename : String
  original_width : Nat
  original_height : Nat
  prob_nr : Nat
  prob_nc : Nat
deriving DecidableEq, Repr

/-- Lines 243–252: the result-image record built for one good sample
before `annonet_infer` fills its pixels. -/
def make_result_image (s : sampleDS) : result_image_type :=
  { filename := s.image_filenames.image_filename ++ "_probability_map.png"
    original_width := s.original_width
    original_height := s.original_height
    prob_nr := s.input_nr
    prob_nc := s.input_nc }

/-- The writer stage's resize target (lines 209–210): the result buffer
is resized to `original_height × original_width` before saving. -/
def writer_output_dims (r : result_image_type) : Nat × Nat :=
  (r.original_height, r.original_width)

/-- The main inference loop over the dequeued samples: on the first
sample with a non-empty `error`, the loop throws that message (lines
239–241) and processes nothing further; otherwise each sample's result
image is enqueued in order. -/
def infer_loop : List sampleDS → List result_image_type × Option String
  | [] => ([], none)
  | s :: rest =>
    if s.error ≠ "" then
      ([], some s.error)
    else
      let p := infer_loop rest
      (make_result_image s :: p.1, p.2)

/-- The run-level ordering of `main` relevant here: the gains are parsed
(line 161) before any reader or writer thread is spawned (lines 190,
204) and before the inference loop runs; a gains-parsing throw
therefore aborts the run with no sample ever processed. -/
def run_annonet_infer {V : Type} (stoul : String → Except String Nat)
    (stod : String → Except String V) (gain_strings : List String) (class_count : Nat)
    (zero : V) (samples : List sampleDS) :
    Except String (List result_image_type × Option String) :=
  match parse_class_specific_values stoul stod gain_strings class_count zero with
  | .error e => .error e
  | .ok _gains => .ok (infer_loop samples)

/-! ## Concrete numeric parsers used to instantiate the oracles -/

/-- The numeric value of a decimal digit, if `c` is one. -/
def digitVal (c : Char) : Option Nat :=
  if '0' ≤ c ∧ c ≤ '9' then some (c.toNat - '0'.toNat) else none

/-- A simple all-digits natural-number parser: a concrete instantiation
of the `stoul`/`stod` oracles (restricted to plain digit strings, with
the conventional non-empty error message on failure). -/
def natParse (s : String) : Except String Nat :=
  if s.toList ≠ [] ∧ s.toList.all (fun c => (digitVal c).isSome) then
    .ok (s.toList.foldl (fun acc c => acc * 10 + (digitVal c).getD 0) 0)
  else
    .error "stoul"

/-! ## Predicates and concrete inputs used in the statements below -/

/-- `s` parses (under the given oracles) to a gain specification naming
class index `i`. -/
def names_index {V : Type} (stoul : String → Except String Nat)
    (stod : String → Except String V) (s : String) (i : Nat) : Prop :=
  ∃ csv, parse_class_specific_value stoul stod s = .ok csv ∧ csv.class_index = i

/-- The gain string has no colon separating a non-empty index part from
a non-empty value part: no colon at all, or the first colon at
position 0 (empty index part) or at the last position (empty value
part). -/
def bad_colon (s : String) : Prop :=
  match s.toList.findIdx? (fun ch => ch = ':') with
  | none => True
  | some p => p = 0 ∨ p + 1 = s.toList.length

/-- The gain string passes the colon check but its parsed class index
(the `stoul` result narrowed to `uint16_t`) is not below the class
count. -/
def gain_index_out_of_range (stoul : String → Except String Nat)
    (class_count : Nat) (s : String) : Prop :=
  ∃ p, s.toList.findIdx? (fun ch => ch = ':') = some p ∧
    ¬(p < 1 ∨ p ≥ s.toList.length - 1) ∧
    ∃ m, stoul (String.mk (s.toList.take p)) = .ok m ∧ m % 65536 ≥ class_count

/-- A gain specification the claim says must be rejected. -/
def gain_spec_bad (stoul : String → Except String Nat)
    (class_count : Nat) (s : String) : Prop :=
  bad_colon s ∨ gain_index_out_of_range stoul class_count s

/-- The `anno_classes` entry has a (complete) color equal to the
reserved `(0, 0, 0, 0)` value, after `int` → `unsigned char`
narrowing. -/
def entry_reserved (e : JEntry) : Prop :=
  ∃ c, e.color = some c ∧
    ∃ r g b a, c.red = some r ∧ c.green = some g ∧ c.blue = some b ∧ c.alpha = some a ∧
      pixel_of_ints r g b a = rgba_ignore_label

/-- A 2 × 3 input image (all-zero pixels). -/
def mismatch_input_image : MatrixD Nat :=
  ⟨2, 3, [[0, 0, 0], [0, 0, 0]]⟩

/-- A 2 × 4 label image, every pixel the color key of built-in class 0:
same row count as `mismatch_input_image` but a different column
count. -/
def mismatch_label_image : MatrixD rgb_alpha_pixel :=
  ⟨2, 4, List.replicate 2 (List.replicate 4 ⟨0, 255, 0, 64⟩)⟩

/-- The filenames of the mismatched pair. -/
def mismatch_filenames : image_filenames :=
  ⟨"img.png", "img.png_mask.png"⟩

/-- `read_sample` evaluated on the mismatched pair (loaders returning
exactly those two images, ground truth not required). -/
def mismatch_sample : sample :=
  read_sample (fun _ => .ok mismatch_input_image) (fun _ => .ok mismatch_label_image)
    mismatch_filenames default_anno_classes false

/-- A well-formed `anno_classes` entry (name present, complete
non-reserved color). -/
def good_entry : JEntry :=
  ⟨some "c", some ⟨some 1, some 2, some 3, some 4⟩⟩

/-- An entry whose color is the reserved `(0, 0, 0, 0)`. -/
def reserved_entry : JEntry :=
  ⟨some "x", some ⟨some 0, some 0, some 0, some 0⟩⟩

/-- The class list produced from 65537 copies of `good_entry`: the
`uint16_t` index field wraps at position 65536. -/
def big_anno_classes : List AnnoClass :=
  (List.range 65537).map (fun k => ⟨k % 65536, pixel_of_ints 1 2 3 4, "c"⟩)

/-! ## Helper lemmas -/

theorem list_getD_set_self {α : Type} (l : List α) (i : Nat) (v d : α) (h : i < l.length) :
    (l.set i v).getD i d = v := by
  induction l generalizing i with
  | nil => simp at h
  | cons a t ih =>
    cases i with
    | zero => rfl
    | succ j => exact ih j (by simpa using h)

theorem list_getD_set_ne {α : Type} (l : List α) (i j : Nat) (v d : α) (h : j ≠ i) :
    (l.set i v).getD j d = l.getD j d := by
  induction l generalizing i j with
  | nil => simp [List.set]
  | cons a t ih =>
    cases i with
    | zero =>
      cases j with
      | zero => exact absurd rfl h
      | succ j' => rfl
    | succ i' =>
      cases j with
      | zero => rfl
      | succ j' => exact ih i' j' (fun hEq => h (by rw [hEq]))

theorem list_getD_replicate {α : Type} (n i : Nat) (z : α) :
    (List.replicate n z).getD i z = z := by
  induction n generalizing i with
  | zero => rfl
  | succ m ih =>
    cases i with
    | zero => rfl
    | succ j => exact ih j

/-! ## Claim theorems -/

/-- C8: `parse_anno_classes` applied to the empty class-definition
document returns exactly the two built-in classes, with indices 0 and 1
and two distinct, non-reserved color keys. -/
theorem parse_anno_classes_empty_defaults (parse : String → JDoc) :
    parse_anno_classes parse "" = .ok default_anno_classes ∧
    default_anno_classes.length = 2 ∧
    default_anno_classes.map AnnoClass.index = [0, 1] ∧
    (default_anno_classes.map AnnoClass.rgba_label).Nodup ∧
    rgba_ignore_label ∉ default_anno_classes.map AnnoClass.rgba_label :=
  ⟨by simp [parse_anno_classes], by decide, by decide, by decide, by decide⟩

/-- C1 (evaluation at the failing input): with an input image of 2 rows
and 3 columns and a label image of 2 rows and 4 columns — dimensions
that differ — `read_sample` leaves `error` empty and decodes the label
image into the sample, because the size check on line 222 of `annonet.h`
uses `||` (decode when the row counts OR the column counts agree)
instead of `&&`; the claimed "Label image size mismatch" error is only
produced when both dimensions differ. -/
theorem read_sample_size_mismatch_decodes :
    mismatch_input_image.nr = mismatch_label_image.nr ∧
    mismatch_input_image.nc ≠ mismatch_label_image.nc ∧
    mismatch_sample.error = "" ∧
    mismatch_sample.label_image = ⟨2, 4, List.replicate 2 (List.replicate 4 0)⟩ := by
  decide

/-- C2: whenever the orchestrator's main inference loop dequeues a
decoded sample with a non-empty `error` after a prefix of good samples,
it aborts the run with exactly that error, having enqueued result
images only for the good prefix — later samples are never processed
(`annonet_infer_main.cpp` lines 237–241 throw inside the loop). -/
theorem infer_loop_aborts_on_error (pre : List sampleDS) (s : sampleDS) (post : List sampleDS)
    (hpre : ∀ t ∈ pre, t.error = "") (hs : s.error ≠ "") :
    infer_loop (pre ++ s :: post) = (pre.map make_result_image, some s.error) := by
  induction pre with
  | nil => simp [infer_loop, hs]
  | cons t rest ih =>
    have ht : t.error = "" := hpre t (by simp)
    have hrest := ih (fun u hu => hpre u (by simp [hu]))
    simp [infer_loop, ht, hrest]

/-- Witness for C2: a single dequeued sample carrying error `"bad"`
aborts the loop with `"bad"` and no result image. -/
theorem infer_loop_aborts_on_error_witness :
    infer_loop [⟨⟨"a", ""⟩, 0, 0, 0, 0, "bad"⟩] = ([], some "bad") :=
  infer_loop_aborts_on_error [] ⟨⟨"a", ""⟩, 0, 0, 0, 0, "bad"⟩ [] (by simp) (by decide)

/-- C3: `read_sample` returns normally for every input (it is a total
function into `sample` in this embedding, mirroring the source's
catch-all `try`/`catch`), and every exception raised while loading the
image, loading the label image, or decoding the label image is captured
in the returned sample's `error` field. -/
theorem read_sample_captures_errors
    (load_input : String → Except String (MatrixD Nat))
    (load_label : String → Except String (MatrixD rgb_alpha_pixel))
    (fns : image_filenames) (anno_classes : List AnnoClass) (require_ground_truth : Bool)
    (e : String)
    (h : load_input fns.image_filename = .error e ∨
      (∃ img, load_input fns.image_filename = .ok img ∧ fns.label_filename ≠ "" ∧
        load_label fns.label_filename = .error e) ∨
      (∃ img rgba, load_input fns.image_filename = .ok img ∧ fns.label_filename ≠ "" ∧
        load_label fns.label_filename = .ok rgba ∧
        (img.nr = rgba.nr ∨ img.nc = rgba.nc) ∧
        decode_rgba_label_image rgba
          { image_filenames := fns, input_image := img, label_image := .empty,
            labeled_points_by_class := [], error := "" } anno_classes = .error e)) :
    (read_sample load_input load_label fns anno_classes require_ground_truth).error = e := by
  unfold read_sample
  rcases h with h1 | ⟨img, h1, h2, h3⟩ | ⟨img, rgba, h1, h2, h3, h4, h5⟩
  · rw [h1]
  · rw [h1]
    simp only [h3]
    rw [if_pos h2]
  · rw [h1]
    simp only [h3]
    rw [if_pos h2, if_pos h4, h5]

/-- Witness for C3: a loader that throws `"boom"` on the input image
yields a sample whose `error` field is `"boom"`. -/
theorem read_sample_captures_errors_witness :
    (read_sample (fun _ => .error "boom") (fun _ => .ok .empty) ⟨"a", ""⟩
      default_anno_classes false).error = "boom" :=
  read_sample_captures_errors _ _ _ _ _ _ (Or.inl rfl)

/-- C4: the decoded sample records the pre-downscale image dimensions in
`original_width`/`original_height` whether or not downscaling is
configured; downscaling (when configured) is applied to the input image
at decode time; and the writer stage resizes the result image built
from the sample back to exactly the original dimensions. -/
theorem read_sample_downscaled_original_dims
    (load_dims : String → Except String (Nat × Nat)) (downscale : Nat × Nat → Nat × Nat)
    (downscaling_configured : Bool) (fns : image_filenames) (h w : Nat)
    (hload : load_dims fns.image_filename = .ok (h, w)) :
    (read_sample_downscaled load_dims downscale downscaling_configured fns).original_width = w ∧
    (read_sample_downscaled load_dims downscale downscaling_configured fns).original_height = h ∧
    (read_sample_downscaled load_dims downscale downscaling_configured fns).error = "" ∧
    (downscaling_configured = true →
      ((read_sample_downscaled load_dims downscale downscaling_configured fns).input_nr,
       (read_sample_downscaled load_dims downscale downscaling_configured fns).input_nc) =
        downscale (h, w)) ∧
    (downscaling_configured = false →
      ((read_sample_downscaled load_dims downscale downscaling_configured fns).input_nr,
       (read_sample_downscaled load_dims downscale downscaling_configured fns).input_nc) =
        (h, w)) ∧
    writer_output_dims (make_result_image
      (read_sample_downscaled load_dims downscale downscaling_configured fns)) = (h, w) := by
  cases downscaling_configured <;>
    simp [read_sample_downscaled, hload, writer_output_dims, make_result_image]

/-- Witness for C4: an image loaded with 10 rows and 20 columns,
downscaled to 5 × 10, still records 20 × 10 as its original
width × height, and the writer resizes back to 10 × 20. -/
theorem read_sample_downscaled_original_dims_witness :
    (read_sample_downscaled (fun _ => .ok (10, 20)) (fun _ => (5, 10)) true
      ⟨"a", ""⟩).original_width = 20 ∧
    writer_output_dims (make_result_image
      (read_sample_downscaled (fun _ => .ok (10, 20)) (fun _ => (5, 10)) true ⟨"a", ""⟩)) =
      (10, 20) :=
  ⟨(read_sample_downscaled_original_dims (fun _ => .ok (10, 20)) (fun _ => (5, 10)) true
      ⟨"a", ""⟩ 10 20 rfl).1,
   (read_sample_downscaled_original_dims (fun _ => .ok (10, 20)) (fun _ => (5, 10)) true
      ⟨"a", ""⟩ 10 20 rfl).2.2.2.2.2⟩

/-- Shape of the gain vector produced by the loop of
`parse_class_specific_values`, for any starting vector: indices named by
no remaining string keep their slot, and every named index ends with
the value of one of the strings naming it. -/
theorem parse_values_go_spec {V : Type} (stoul : String → Except String Nat)
    (stod : String → Except String V) (n : Nat) (d : V) :
    ∀ (strs : List String) (acc : List V), acc.length = n →
    (∀ s ∈ strs, ∃ csv, parse_class_specific_value stoul stod s = .ok csv ∧
      csv.class_index < n) →
    ∃ res, parse_class_specific_values_go stoul stod n strs acc = .ok res ∧
      res.length = n ∧
      (∀ i, i < n →
        ((∀ s ∈ strs, ¬ names_index stoul stod s i) → res.getD i d = acc.getD i d) ∧
        ((∃ s ∈ strs, names_index stoul stod s i) →
          ∃ s ∈ strs, ∃ csv, parse_class_specific_value stoul stod s = .ok csv ∧
            csv.class_index = i ∧ res.getD i d = csv.value)) := by
  intro strs
  induction strs with
  | nil =>
    intro acc hacc _
    exact ⟨acc, rfl, hacc, fun i _ =>
      ⟨fun _ => rfl, fun hex => by simp at hex⟩⟩
  | cons s rest ih =>
    intro acc hacc hwf
    obtain ⟨csv, hcsv, hlt⟩ := hwf s (by simp)
    have hnotge : ¬ csv.class_index ≥ n := by omega
    have hacc2 : (acc.set csv.class_index csv.value).length = n := by
      simp [hacc]
    obtain ⟨res, hres, hlen, hprop⟩ := ih (acc.set csv.class_index csv.value) hacc2
      (fun t ht => hwf t (by simp [ht]))
    refine ⟨res, ?_, hlen, ?_⟩
    · simp [parse_class_specific_values_go, hcsv, hnotge, hres]
    · intro i hi
      constructor
      · intro hnone
        have h1 := (hprop i hi).1 (fun t ht => hnone t (by simp [ht]))
        have h2 : csv.class_index ≠ i := fun hEq =>
          hnone s (by simp) ⟨csv, hcsv, hEq⟩
        rw [h1, list_getD_set_ne acc csv.class_index i csv.value d (Ne.symm h2)]
      · intro hex
        by_cases hrest : ∃ t ∈ rest, names_index stoul stod t i
        · obtain ⟨t2, ht2, hcsv2⟩ := (hprop i hi).2 hrest
          exact ⟨t2, by simp [ht2], hcsv2⟩
        · have hsi : names_index stoul stod s i := by
            rcases hex with ⟨t, ht, hnt⟩
            rcases List.mem_cons.mp ht with rfl | htr
            · exact hnt
            · exact absurd ⟨t, htr, hnt⟩ hrest
          obtain ⟨csv', hcsv', hidx'⟩ := hsi
          rw [hcsv] at hcsv'
          injection hcsv' with hEq
          subst hEq
          have h1 := (hprop i hi).1 (fun t ht hnt => hrest ⟨t, ht, hnt⟩)
          refine ⟨s, by simp, csv, hcsv, hidx', ?_⟩
          rw [h1, ← hidx', list_getD_set_self acc _ _ _ (by omega)]

/-- C5: for every class count and every list of well-formed gain
specifications whose (`uint16_t`-narrowed) indices are all below the
class count, `parse_class_specific_values` returns a vector of exactly
`class_count` entries; every index named by no specification holds the
zero bias, and every index named by some specification holds the value
of a specification naming it (the last one, when several do). -/
theorem parse_class_specific_values_spec {V : Type} (stoul : String → Except String Nat)
    (stod : String → Except String V) (strs : List String) (class_count : Nat) (zero : V)
    (hwf : ∀ s ∈ strs, ∃ csv, parse_class_specific_value stoul stod s = .ok csv ∧
      csv.class_index < class_count) :
    ∃ res, parse_class_specific_values stoul stod strs class_count zero = .ok res ∧
      res.length = class_count ∧
      (∀ i, i < class_count → (∀ s ∈ strs, ¬ names_index stoul stod s i) →
        res.getD i zero = zero) ∧
      (∀ i, i < class_count → (∃ s ∈ strs, names_index stoul stod s i) →
        ∃ s ∈ strs, ∃ csv, parse_class_specific_value stoul stod s = .ok csv ∧
          csv.class_index = i ∧ res.getD i zero = csv.value) := by
  obtain ⟨res, h1, h2, h3⟩ := parse_values_go_spec stoul stod class_count zero strs
    (List.replicate class_count zero) (by simp) hwf
  refine ⟨res, h1, h2, fun i hi hnone => ?_, fun i hi hex => (h3 i hi).2 hex⟩
  rw [(h3 i hi).1 hnone, list_getD_replicate]

/-- Witness for C5: the single specification `"1:5"` with two classes
yields a length-2 vector with slot 0 at the zero bias and slot 1 at 5. -/
theorem parse_class_specific_values_spec_witness :
    (∀ s ∈ ["1:5"], ∃ csv, parse_class_specific_value natParse natParse s = .ok csv ∧
      csv.class_index < 2) ∧
    ∃ res, parse_class_specific_values natParse natParse ["1:5"] 2 0 = .ok res ∧
      res.length = 2 ∧
      (∀ i, i < 2 → (∀ s ∈ ["1:5"], ¬ names_index natParse natParse s i) →
        res.getD i 0 = 0) ∧
      (∀ i, i < 2 → (∃ s ∈ ["1:5"], names_index natParse natParse s i) →
        ∃ s ∈ ["1:5"], ∃ csv, parse_class_specific_value natParse natParse s = .ok csv ∧
          csv.class_index = i ∧ res.getD i 0 = csv.value) :=
  have hwf : ∀ s ∈ ["1:5"], ∃ csv, parse_class_specific_value natParse natParse s = .ok csv ∧
      csv.class_index < 2 := by
    intro s hs
    simp only [List.mem_singleton] at hs
    subst hs
    exact ⟨⟨1, 5⟩, rfl, by decide⟩
  ⟨hwf, parse_class_specific_values_spec natParse natParse ["1:5"] 2 0 hwf⟩

theorem str_append_ne_empty (x y : String) (h : x ≠ "") : x ++ y ≠ "" := by
  intro hc
  apply h
  have hd : x.data ++ y.data = [] := by
    have := congrArg String.data hc
    simpa [String.data_append] using this
  have hx : x.data = [] := (List.append_eq_nil.mp hd).1
  cases x
  simp_all

/-- The out-of-range gain message is never empty. -/
theorem gains_range_error_ne_empty (a b : Nat) : gains_range_error a b ≠ "" := by
  unfold gains_range_error
  apply str_append_ne_empty
  apply str_append_ne_empty
  apply str_append_ne_empty
  apply str_append_ne_empty
  decide

/-- Characterization of a successful `parse_class_specific_value`. -/
theorem parse_value_ok_shape {V : Type} (stoul : String → Except String Nat)
    (stod : String → Except String V) (s : String) (csv : class_specific_value_type V)
    (h : parse_class_specific_value stoul stod s = .ok csv) :
    ∃ p, s.toList.findIdx? (fun ch => ch = ':') = some p ∧
      ¬(p < 1 ∨ p ≥ s.toList.length - 1) ∧
      ∃ m v, stoul (String.mk (s.toList.take p)) = .ok m ∧
        stod (String.mk (s.toList.drop (p + 1))) = .ok v ∧ csv = ⟨m % 65536, v⟩ := by
  unfold parse_class_specific_value at h
  split at h
  · cases h
  · rename_i p heq
    split at h
    · cases h
    · rename_i hcond
      split at h
      · cases h
      · rename_i m hm
        split at h
        · cases h
        · rename_i v hv
          injection h with h2
          exact ⟨p, heq, hcond, m, v, hm, hv, h2.symm⟩

/-- Every error of `parse_class_specific_value` is the format message or
an error of one of the numeric-parsing oracles. -/
theorem parse_value_error_shape {V : Type} (stoul : String → Except String Nat)
    (stod : String → Except String V) (s e : String)
    (h : parse_class_specific_value stoul stod s = .error e) :
    e = gains_format_error ∨ (∃ t, stoul t = .error e) ∨ (∃ t, stod t = .error e) := by
  unfold parse_class_specific_value at h
  split at h
  · injection h with h2
    exact Or.inl h2.symm
  · split at h
    · injection h with h2
      exact Or.inl h2.symm
    · split at h
      · rename_i e1 hul
        injection h with h2
        exact Or.inr (Or.inl ⟨_, h2 ▸ hul⟩)
      · split at h
        · rename_i e2 hod
          injection h with h2
          exact Or.inr (Or.inr ⟨_, h2 ▸ hod⟩)
        · cases h

/-- A gain string failing the colon shape produces exactly the format
error. -/
theorem parse_value_bad_colon {V : Type} (stoul : String → Except String Nat)
    (stod : String → Except String V) (s : String) (h : bad_colon s) :
    parse_class_specific_value stoul stod s = .error gains_format_error := by
  unfold bad_colon at h
  unfold parse_class_specific_value
  split at h
  · rfl
  · rename_i p hfind
    have hc : p < 1 ∨ p ≥ s.toList.length - 1 := by
      rcases h with h | h
      · exact Or.inl (by omega)
      · exact Or.inr (by omega)
    rw [if_pos hc]

/-- The loop of `parse_class_specific_values` fails, with a non-empty
message, whenever some remaining gain string is bad (assuming the
numeric-parsing oracles throw with non-empty messages, as `std::stoul`
and `std::stod` do). -/
theorem parse_values_go_fails {V : Type} (stoul : String → Except String Nat)
    (stod : String → Except String V)
    (hstoul : ∀ t e, stoul t = .error e → e ≠ "")
    (hstod : ∀ t e, stod t = .error e → e ≠ "") (n : Nat) :
    ∀ (strs : List String) (acc : List V), (∃ s ∈ strs, gain_spec_bad stoul n s) →
    ∃ msg, parse_class_specific_values_go stoul stod n strs acc = .error msg ∧ msg ≠ "" := by
  intro strs
  induction strs with
  | nil => intro acc h; simp at h
  | cons s rest ih =>
    intro acc hbad
    cases hp : parse_class_specific_value stoul stod s with
    | error e =>
      refine ⟨e, by simp [parse_class_specific_values_go, hp], ?_⟩
      rcases parse_value_error_shape stoul stod s e hp with h | ⟨t, ht⟩ | ⟨t, ht⟩
      · subst h; decide
      · exact hstoul t e ht
      · exact hstod t e ht
    | ok csv =>
      by_cases hge : csv.class_index ≥ n
      · exact ⟨gains_range_error csv.class_index n,
          by simp [parse_class_specific_values_go, hp, hge],
          gains_range_error_ne_empty _ _⟩
      · have hsgood : ¬ gain_spec_bad stoul n s := by
          intro hb
          rcases hb with hb | ⟨p, hfind, hcond, m, hm, hmge⟩
          · rw [parse_value_bad_colon stoul stod s hb] at hp
            cases hp
          · obtain ⟨p2, hfind2, hcond2, m2, v2, hm2, hv2, hcsv⟩ :=
              parse_value_ok_shape stoul stod s csv hp
            rw [hfind] at hfind2
            injection hfind2 with h3
            subst h3
            rw [hm] at hm2
            injection hm2 with h4
            subst h4
            rw [hcsv] at hge
            exact hge hmge
        rcases hbad with ⟨t, ht, hbt⟩
        rcases List.mem_cons.mp ht with rfl | htr
        · exact absurd hbt hsgood
        · obtain ⟨msg, h1, h2⟩ := ih (acc.set csv.class_index csv.value) ⟨t, htr, hbt⟩
          exact ⟨msg, by simp [parse_class_specific_values_go, hp, hge, h1], h2⟩

/-- C6: whenever some gain specification lacks a colon separating a
non-empty index part from a non-empty value part, or its parsed
(`uint16_t`-narrowed) class index is not below the class count, the run
aborts during gain parsing with a non-empty (descriptive) message —
uniformly in the samples, i.e. before any image is processed and before
any worker consumes work (`parse_class_specific_values` is called on
line 161 of `annonet_infer_main.cpp`, before the reader and writer
threads are spawned on lines 190 and 204). -/
theorem run_aborts_on_bad_gain_spec {V : Type} (stoul : String → Except String Nat)
    (stod : String → Except String V)
    (hstoul : ∀ t e, stoul t = .error e → e ≠ "")
    (hstod : ∀ t e, stod t = .error e → e ≠ "")
    (gain_strings : List String) (class_count : Nat) (zero : V)
    (hbad : ∃ s ∈ gain_strings, gain_spec_bad stoul class_count s) :
    ∃ msg, msg ≠ "" ∧ ∀ samples,
      run_annonet_infer stoul stod gain_strings class_count zero samples = .error msg := by
  obtain ⟨msg, h1, h2⟩ := parse_values_go_fails stoul stod hstoul hstod class_count
    gain_strings (List.replicate class_count zero) hbad
  exact ⟨msg, h2, fun samples => by
    simp [run_annonet_infer, parse_class_specific_values, h1]⟩

/-- `natParse` only throws its fixed non-empty message. -/
theorem natParse_error_ne (t e : String) (h : natParse t = .error e) : e ≠ "" := by
  unfold natParse at h
  split at h
  · cases h
  · injection h with h2
    subst h2
    decide

/-- Witness for C6: the colon-free specification `"abc"` aborts the run
with a non-empty message, whatever the samples are. -/
theorem run_aborts_on_bad_gain_spec_witness :
    (∃ s ∈ ["abc"], gain_spec_bad natParse 2 s) ∧
    ∃ msg, msg ≠ "" ∧ ∀ samples,
      run_annonet_infer natParse natParse ["abc"] 2 (0 : Nat) samples = .error msg :=
  have hbad : ∃ s ∈ ["abc"], gain_spec_bad natParse 2 s :=
    ⟨"abc", by simp, Or.inl (by unfold bad_colon; exact trivial)⟩
  ⟨hbad, run_aborts_on_bad_gain_spec natParse natParse natParse_error_ne natParse_error_ne
    ["abc"] 2 0 hbad⟩

/-- An entry with the reserved color is always rejected by
`parse_anno_class` (possibly with an earlier-detected shape error for
the same entry). -/
theorem parse_anno_class_reserved (i : Nat) (e : JEntry) (h : entry_reserved e) :
    ∃ m, parse_anno_class i e = .error m := by
  rcases h with ⟨c, hc, r, g, b, a, hr, hg, hb, ha, hpx⟩
  cases hn : e.name with
  | none =>
    refine ⟨"Unexpected anno classes json content - no name found", ?_⟩
    simp [parse_anno_class, hn]
  | some nm =>
    refine ⟨"Unexpected anno classes json content - rgba (0, 0, 0, 0) is reserved for pixels to be ignored", ?_⟩
    simp [parse_anno_class, hn, hc, hr, hg, hb, ha, hpx]

/-- The `anno_classes` loop fails whenever some entry carries the
reserved color. -/
theorem parse_anno_classes_list_reserved_fails (entries : List JEntry) :
    ∀ i, (∃ e ∈ entries, entry_reserved e) →
    ∃ m, parse_anno_classes_list i entries = .error m := by
  induction entries with
  | nil => intro i h; simp at h
  | cons e rest ih =>
    intro i hex
    cases hp : parse_anno_class i e with
    | error m => exact ⟨m, by simp [parse_anno_classes_list, hp]⟩
    | ok c =>
      have hne : ¬ entry_reserved e := by
        intro hr
        obtain ⟨m, hm⟩ := parse_anno_class_reserved i e hr
        rw [hp] at hm
        cases hm
      rcases hex with ⟨e2, he2, hr2⟩
      rcases List.mem_cons.mp he2 with rfl | h2
      · exact absurd hr2 hne
      · obtain ⟨m, hm⟩ := ih (i + 1) ⟨e2, h2, hr2⟩
        exact ⟨m, by simp [parse_anno_classes_list, hp, hm]⟩

/-- C7: `parse_anno_classes` raises a parse error on every (non-empty)
class-definition JSON whose `anno_classes` array contains an entry whose
color is the reserved `(0, 0, 0, 0)` value. -/
theorem parse_anno_classes_rejects_reserved (parse : String → JDoc) (json : String)
    (entries : List JEntry) (hjson : json ≠ "") (hdoc : parse json = .obj (some entries))
    (hres : ∃ e ∈ entries, entry_reserved e) :
    ∃ msg, parse_anno_classes parse json = .error msg := by
  obtain ⟨m, hm⟩ := parse_anno_classes_list_reserved_fails entries 0 hres
  exact ⟨m, by simp [parse_anno_classes, hjson, hdoc, hm]⟩

/-- Witness for C7: a one-entry array carrying the reserved color is
rejected. -/
theorem parse_anno_classes_rejects_reserved_witness :
    ("j" ≠ "") ∧ (∃ e ∈ [reserved_entry], entry_reserved e) ∧
    ∃ msg, parse_anno_classes (fun _ => .obj (some [reserved_entry])) "j" = .error msg :=
  have hres : ∃ e ∈ [reserved_entry], entry_reserved e :=
    ⟨reserved_entry, by simp,
      ⟨⟨some 0, some 0, some 0, some 0⟩, rfl, 0, 0, 0, 0, rfl, rfl, rfl, rfl, by decide⟩⟩
  ⟨by decide, hres,
    parse_anno_classes_rejects_reserved (fun _ => .obj (some [reserved_entry])) "j"
      [reserved_entry] (by decide) rfl hres⟩

/-- A successfully parsed entry at array position `i` carries index
`i % 65536` (the `uint16_t` narrowing in the `AnnoClass` constructor
call). -/
theorem parse_anno_class_ok_index (i : Nat) (e : JEntry) (c : AnnoClass)
    (h : parse_anno_class i e = .ok c) : c.index = i % 65536 := by
  unfold parse_anno_class at h
  split at h
  · cases h
  · split at h
    · cases h
    · split at h
      · split at h
        · cases h
        · injection h with h2
          rw [← h2]
      · cases h

/-- Shape of every accepted `anno_classes` array: one class per entry,
the class at position `k` (with the loop started at `i`) holding index
`(i + k) % 65536`. -/
theorem parse_anno_classes_list_ok_shape :
    ∀ (entries : List JEntry) (i : Nat) (l : List AnnoClass),
    parse_anno_classes_list i entries = .ok l →
    l.length = entries.length ∧
    ∀ k (hk : k < l.length), (l.get ⟨k, hk⟩).index = (i + k) % 65536 := by
  intro entries
  induction entries with
  | nil =>
    intro i l h
    injection h with h2
    subst h2
    exact ⟨rfl, fun k hk => by simp at hk⟩
  | cons e rest ih =>
    intro i l h
    unfold parse_anno_classes_list at h
    split at h
    · cases h
    · rename_i c hc
      split at h
      · cases h
      · rename_i cs hcs
        injection h with h2
        subst h2
        obtain ⟨hlen, hidx⟩ := ih (i + 1) cs hcs
        refine ⟨by simp [hlen], ?_⟩
        intro k hk
        cases k with
        | zero => simpa using parse_anno_class_ok_index i e c hc
        | succ k2 =>
          have hk2 : k2 < cs.length := by simpa using hk
          have harith : i + 1 + k2 = i + (k2 + 1) := by omega
          calc ((c :: cs).get ⟨k2 + 1, hk⟩).index = (cs.get ⟨k2, hk2⟩).index := rfl
            _ = (i + 1 + k2) % 65536 := hidx k2 hk2
            _ = (i + (k2 + 1)) % 65536 := by rw [harith]

/-- The `anno_classes` loop succeeds when every entry parses at every
position. -/
theorem parse_anno_classes_list_all_ok :
    ∀ (entries : List JEntry) (i : Nat),
    (∀ j e, e ∈ entries → ∃ c, parse_anno_class j e = .ok c) →
    ∃ l, parse_anno_classes_list i entries = .ok l := by
  intro entries
  induction entries with
  | nil => intro i _; exact ⟨[], rfl⟩
  | cons e rest ih =>
    intro i hwf
    obtain ⟨c, hc⟩ := hwf i e (by simp)
    obtain ⟨cs, hcs⟩ := ih (i + 1) (fun j e2 he2 => hwf j e2 (by simp [he2]))
    exact ⟨c :: cs, by simp [parse_anno_classes_list, hc, hcs]⟩

/-- With a non-empty JSON string parsed to an object holding an
`anno_classes` array, `parse_anno_classes` is the array loop. -/
theorem parse_anno_classes_obj (parse : String → JDoc) (json : String)
    (entries : List JEntry) (hj : ¬ json = "") (hdoc : parse json = .obj (some entries)) :
    parse_anno_classes parse json = parse_anno_classes_list 0 entries := by
  unfold parse_anno_classes
  rw [if_neg hj, hdoc]

/-- C9 counterexample: a class-definition document whose `anno_classes`
array has 65537 well-formed entries is accepted, and the element at
position 65536 of the returned list has index 0, not 65536 — the
`uint16_t` index field wraps, so the indices are not dense and
contiguous as positions. -/
theorem anno_class_index_wraps :
    ∃ l, parse_anno_classes (fun _ => .obj (some (List.replicate 65537 good_entry))) "x" =
        .ok l ∧
      l.length = 65537 ∧ ∃ hk : 65536 < l.length, (l.get ⟨65536, hk⟩).index = 0 := by
  have hwf : ∀ j e, e ∈ List.replicate 65537 good_entry →
      ∃ c, parse_anno_class j e = .ok c := by
    intro j e he
    rw [List.eq_of_mem_replicate he]
    exact ⟨⟨j % 65536, pixel_of_ints 1 2 3 4, "c"⟩, rfl⟩
  obtain ⟨l, hl⟩ := parse_anno_classes_list_all_ok (List.replicate 65537 good_entry) 0 hwf
  obtain ⟨hlen, hidx⟩ := parse_anno_classes_list_ok_shape (List.replicate 65537 good_entry) 0 l hl
  rw [List.length_replicate] at hlen
  have hk : 65536 < l.length := by omega
  refine ⟨l, ?_, hlen, hk, ?_⟩
  · rw [parse_anno_classes_obj _ "x" (List.replicate 65537 good_entry) (by decide) rfl]
    exact hl
  · have h36 := hidx 65536 hk
    rw [Nat.zero_add, Nat.mod_self] at h36
    exact h36

/-- C9 (amended): for every input accepted by `parse_anno_classes` that
yields at most 65535 classes — so that every position fits `uint16_t`
strictly below the ignore sentinel — the returned list has dense,
contiguous indices starting at 0 (the `k`-th element's index equals
`k`), the reserved ignore color maps to the ignore sentinel 65535, and
the sentinel is distinct from every real index.  (Without the size
bound the `k`-th index is `k % 2 ^ 16`: see the wrap theorem above.) -/
theorem anno_class_invariants_bounded (parse : String → JDoc) (json : String)
    (l : List AnnoClass) (hok : parse_anno_classes parse json = .ok l)
    (hsmall : l.length ≤ 65535) :
    l.map AnnoClass.index = List.range l.length ∧
    rgba_label_to_index_label rgba_ignore_label l = .ok label_to_ignore ∧
    ∀ ac ∈ l, ac.index ≠ label_to_ignore := by
  have hignore : rgba_label_to_index_label rgba_ignore_label l = .ok label_to_ignore := by
    simp [rgba_label_to_index_label]
  have hpos : ∀ k (hk : k < l.length), (l.get ⟨k, hk⟩).index = k := by
    unfold parse_anno_classes at hok
    split at hok
    · injection hok with h2
      subst h2
      intro k hk
      have hk2 : k < 2 := by simpa [default_anno_classes] using hk
      interval_cases k <;> rfl
    · split at hok
      · cases hok
      · cases hok
      · cases hok
      · rename_i entries heq
        obtain ⟨hlen, hidx⟩ := parse_anno_classes_list_ok_shape entries 0 l hok
        intro k hk
        rw [hidx k hk, Nat.zero_add, Nat.mod_eq_of_lt (by omega)]
  refine ⟨?_, hignore, ?_⟩
  · apply List.ext_get (by simp)
    intro k h1 h2
    have hk : k < l.length := by simpa using h1
    simp only [List.get_eq_getElem, List.getElem_map, List.getElem_range]
    exact hpos k hk
  · intro ac hac
    obtain ⟨⟨k, hk⟩, rfl⟩ := List.mem_iff_get.mp hac
    rw [hpos k hk]
    unfold label_to_ignore
    omega

/-- Witness for the amended C9: the built-in two-class fallback
satisfies all three conclusions. -/
theorem anno_class_invariants_bounded_witness :
    parse_anno_classes (fun _ => JDoc.parseError) "" = .ok default_anno_classes ∧
    default_anno_classes.length ≤ 65535 ∧
    (default_anno_classes.map AnnoClass.index = List.range default_anno_classes.length ∧
      rgba_label_to_index_label rgba_ignore_label default_anno_classes = .ok label_to_ignore ∧
      ∀ ac ∈ default_anno_classes, ac.index ≠ label_to_ignore) :=
  ⟨by simp [parse_anno_classes], by decide,
    anno_class_invariants_bounded (fun _ => JDoc.parseError) "" default_anno_classes
      (by simp [parse_anno_classes]) (by decide)⟩

/-- On a list with pairwise-distinct color keys, the linear scan of
`rgba_label_to_index_label` finds exactly the element whose color was
asked for. -/
theorem find_first_distinct (l : List AnnoClass) (hnodup : (l.map AnnoClass.rgba_label).Nodup) :
    ∀ i (h : i < l.length),
    l.find? (fun ac => ac.rgba_label = (l.get ⟨i, h⟩).rgba_label) = some (l.get ⟨i, h⟩) := by
  induction l with
  | nil => intro i h; simp at h
  | cons a t ih =>
    intro i h
    cases i with
    | zero => simp [List.find?]
    | succ j =>
      have hj : j < t.length := by simpa using h
      have hget : (a :: t).get ⟨j + 1, h⟩ = t.get ⟨j, hj⟩ := rfl
      rw [hget]
      have hnotin : a.rgba_label ∉ t.map AnnoClass.rgba_label :=
        (List.nodup_cons.mp (by simpa using hnodup)).1
      have hmem : (t.get ⟨j, hj⟩).rgba_label ∈ t.map AnnoClass.rgba_label :=
        List.mem_map_of_mem _ (t.get_mem _ _)
      have hne : ¬ (a.rgba_label = (t.get ⟨j, hj⟩).rgba_label) := fun hEq =>
        hnotin (hEq ▸ hmem)
      rw [List.find?_cons_of_neg _ (by simpa using hne)]
      exact ih (List.nodup_cons.mp (by simpa using hnodup)).2 j hj

/-- C10: on every class list whose color keys are pairwise distinct and
all different from the reserved ignore color, and whose `k`-th element
has index `k`, converting a class index below the class count to its
color with `index_label_to_rgba_label` and back with
`rgba_label_to_index_label` yields the same index. -/
theorem index_rgba_round_trip (l : List AnnoClass)
    (hnodup : (l.map AnnoClass.rgba_label).Nodup)
    (hres : rgba_ignore_label ∉ l.map AnnoClass.rgba_label)
    (hidx : l.map AnnoClass.index = List.range l.length)
    (i : Nat) (hi : i < l.length) :
    rgba_label_to_index_label (index_label_to_rgba_label i l hi) l = .ok i := by
  unfold index_label_to_rgba_label
  unfold rgba_label_to_index_label
  have hmem : (l.get ⟨i, hi⟩).rgba_label ∈ l.map AnnoClass.rgba_label :=
    List.mem_map_of_mem _ (l.get_mem _ _)
  have hne : ¬ ((l.get ⟨i, hi⟩).rgba_label = rgba_ignore_label) := fun hEq =>
    hres (hEq ▸ hmem)
  rw [if_neg hne, find_first_distinct l hnodup i hi]
  have hval : (l.get ⟨i, hi⟩).index = i := by
    have h1 : (l.map AnnoClass.index)[i]? = (List.range l.length)[i]? := by rw [hidx]
    rw [List.getElem?_map, List.getElem?_eq_getElem hi,
        List.getElem?_range (by simpa using hi)] at h1
    simp only [Option.map_some', Option.some.injEq, List.get_eq_getElem] at h1 ⊢
    exact h1
  show Except.ok (l.get ⟨i, hi⟩).index = Except.ok i
  rw [hval]

/-- Witness for C10: the built-in class list round-trips index 1. -/
theorem index_rgba_round_trip_witness :
    (default_anno_classes.map AnnoClass.rgba_label).Nodup ∧
    rgba_ignore_label ∉ default_anno_classes.map AnnoClass.rgba_label ∧
    default_anno_classes.map AnnoClass.index = List.range default_anno_classes.length ∧
    rgba_label_to_index_label
      (index_label_to_rgba_label 1 default_anno_classes (by decide)) default_anno_classes =
      .ok 1 :=
  ⟨by decide, by decide, by decide,
    index_rgba_round_trip default_anno_classes (by decide) (by decide) (by decide) 1 (by decide)⟩

end Annonet
